import Mathlib

/-!
Verification of the ConvI text pipeline (`app/text_pipeline`).

Shallow embedding of:
  * `app/text_pipeline/__init__.py`  — turn parser, role/speaker-id resolution,
    orchestrator (`run_text_pipeline`);
  * `app/text_pipeline/nlp_processor.py` — `clean_text`, `_resolve_nlp_lang`,
    `process_text` with its degraded fallback;
  * `app/text_pipeline/schemas.py` — `NamedEntity`, `ProcessedTurn`,
    `TextPipelineOutput`.

External collaborators (the langdetect-based language detector, the Stanza NLP
pipeline, `unicodedata.normalize`) are modelled as parameters collected in a
`Collab` structure; a `none` result of the Stanza parameter models a raised
exception caught by the `try/except` in `process_text`.

Machine integers do not occur; Python `int` is modelled by `Int`/`Nat` and the
`float` confidence by `ℚ` (no claim computes with it).
-/

namespace ConvI

/-! ## Character-level models of Python string primitives -/

/-- Characters matched by Python's `\s` (and stripped by `str.strip()`):
ASCII whitespace, the whitespace control characters, and the Unicode
whitespace code points. -/
def pyWs (c : Char) : Bool :=
  [' ', '\t', '\n', '\r', '\x0b', '\x0c',
   '\x1c', '\x1d', '\x1e', '\x1f', '\x85', '\xa0',
   ' ', ' ', ' ', ' ', ' ', ' ', ' ',
   ' ', ' ', ' ', ' ', ' ', ' ', ' ',
   ' ', ' ', '　'].contains c

/-- Python `str.strip()`: drop leading and trailing whitespace. -/
def pyStrip (s : String) : String :=
  ⟨((s.data.dropWhile pyWs).reverse.dropWhile pyWs).reverse⟩

/-- Worker for `pySplit`: accumulate the current (reversed) word. -/
def pySplitAux : List Char → List Char → List String
  | [], [] => []
  | [], acc => [⟨acc.reverse⟩]
  | c :: rest, acc =>
    if pyWs c then
      (if acc = [] then pySplitAux rest []
       else ⟨acc.reverse⟩ :: pySplitAux rest [])
    else pySplitAux rest (c :: acc)

/-- Python `str.split()` with no argument: split on whitespace runs and
drop empty fields. -/
def pySplit (s : String) : List String := pySplitAux s.data []

/-- Line-boundary characters of Python `str.splitlines()`. -/
def lineBreakChar (c : Char) : Bool :=
  ['\n', '\r', '\x0b', '\x0c', '\x1c', '\x1d', '\x1e',
   '\x85', ' ', ' '].contains c

/-- Worker for `splitLines`; `\r\n` counts as a single boundary and a
trailing boundary produces no empty final line. -/
def splitLinesAux : List Char → List Char → List String
  | [], acc => if acc = [] then [] else [⟨acc.reverse⟩]
  | '\r' :: '\n' :: rest, acc => ⟨acc.reverse⟩ :: splitLinesAux rest []
  | c :: rest, acc =>
    if lineBreakChar c then ⟨acc.reverse⟩ :: splitLinesAux rest []
    else splitLinesAux rest (c :: acc)

/-- Python `str.splitlines()`. -/
def splitLines (s : String) : List String := splitLinesAux s.data []

/-- Python `str.lower()` restricted to the ASCII case mapping; used only
for speaker labels, which `_TURN_RE` constrains to ASCII letters and
whitespace, so the mapping is exact there.  Entity text is unconstrained,
so the deduplication key uses the runtime's Unicode `str.lower()`
(the `lower` collaborator field) instead. -/
def strLower (s : String) : String := ⟨s.data.map Char.toLower⟩

/-- Python `str.upper()` restricted likewise to the ASCII mapping. -/
def strUpper (s : String) : String := ⟨s.data.map Char.toUpper⟩

/-- One decimal digit, as produced by Python `str(int)`. -/
def digitChar : Nat → Char
  | 0 => '0' | 1 => '1' | 2 => '2' | 3 => '3' | 4 => '4'
  | 5 => '5' | 6 => '6' | 7 => '7' | 8 => '8' | 9 => '9'
  | _ => '*'

/-- Fuel-indexed decimal digit list (most significant first); the fuel
only has to exceed the argument, see `natToDec`. -/
def decDigitsCore : Nat → Nat → List Char
  | 0, _ => []
  | fuel + 1, n =>
    if n < 10 then [digitChar n]
    else decDigitsCore fuel (n / 10) ++ [digitChar (n % 10)]

/-- Decimal rendering of a natural number, as Python `f"{idx}"` produces. -/
def natToDec (n : Nat) : String := ⟨decDigitsCore (n + 1) n⟩

/-! ## Turn parser (`__init__.py`, `_TURN_RE` and `_parse_turns`) -/

def isAsciiLetter (c : Char) : Bool :=
  ('A' ≤ c && c ≤ 'Z') || ('a' ≤ c && c ≤ 'z')

/-- Scan for the first colon preceded only by letters and whitespace;
models the backtracking behaviour of
`re.match(r"^\s*([A-Za-z][A-Za-z\s]*?)\s*:\s*(.*)", line)` past the first
character.  Returns (group before the colon, remainder after the colon);
both are stripped by the caller, absorbing the `\s*` parts. -/
def scanLabel (acc : List Char) : List Char → Option (List Char × List Char)
  | [] => none
  | c :: rest =>
    if c = ':' then some (acc.reverse, rest)
    else if isAsciiLetter c || pyWs c then scanLabel (c :: acc) rest
    else none

/-- `_TURN_RE.match(line)` on an already-stripped line: the line matches
iff it starts with an ASCII letter and its first colon is preceded only by
letters and whitespace. -/
def matchTurn (line : String) : Option (String × String) :=
  match line.data with
  | [] => none
  | c :: rest =>
    if isAsciiLetter c then
      match scanLabel [c] rest with
      | some (g1, g2) => some (⟨g1⟩, ⟨g2⟩)
      | none => none
    else none

/-- Close the open turn, exactly as the two
`if current_label is not None and current_lines:` blocks do:
the turn text is `" ".join(current_lines).strip()`. -/
def flushTurn (lab : Option String) (acc : List String) :
    List (String × String) :=
  match lab with
  | none => []
  | some l => if acc = [] then [] else [(l, pyStrip (String.intercalate " " acc))]

/-- The line loop of `_parse_turns`: state is the open label (if any) and
the accumulated lines of the open turn. -/
def parseGo (lab : Option String) (acc : List String) :
    List String → List (String × String)
  | [] => flushTurn lab acc
  | raw :: rest =>
    let line := pyStrip raw
    if line = "" then parseGo lab acc rest
    else
      match matchTurn line with
      | some (g1, g2) =>
        flushTurn lab acc ++ parseGo (some (pyStrip g1)) [pyStrip g2] rest
      | none =>
        match lab with
        | some _ => parseGo lab (acc ++ [line]) rest
        | none => parseGo lab acc rest

/-- `_parse_turns`: raw transcript to ordered (label, text) turns. -/
def _parse_turns (transcript : String) : List (String × String) :=
  parseGo none [] (splitLines transcript)

/-- A raw transcript line that opens a turn: non-blank after stripping and
matching `_TURN_RE`. -/
def isLabelLine (raw : String) : Bool := (matchTurn (pyStrip raw)).isSome

/-- Number of label-matching lines of a transcript. -/
def countLabelLines (t : String) : Nat :=
  ((splitLines t).filter isLabelLine).length

/-! ## Data model (`schemas.py`) -/

/-- Modelled from the spec: the `Role` enum lives in `app/schemas.py`, which is
not under `src/`; §3 fixes the variant set `{agent, customer, unknown}` and the
member values are the lower-case names, as `role.value.upper()` in
`_make_speaker_id` and the `AGENT_0`/`CUSTOMER_0` scenario ids require. -/
inductive Role
  | agent
  | customer
  | unknown
deriving DecidableEq

/-- The `.value` string of a `Role` member. -/
def Role.value : Role → String
  | .agent => "agent"
  | .customer => "customer"
  | .unknown => "unknown"

/-- `schemas.NamedEntity`. -/
structure NamedEntity where
  text : String
  label : String
  start_char : Int
  end_char : Int
deriving DecidableEq

/-- `schemas.ProcessedTurn` (the `language_confidence` float is modelled
by `ℚ`; no claim computes with it). -/
structure ProcessedTurn where
  turn_index : Nat
  speaker_label : String
  role : Role
  original_text : String
  cleaned_text : String
  lemmatized_text : String
  language : String
  language_confidence : ℚ
  entities : List NamedEntity
  tokens : List String
deriving DecidableEq

/-- `schemas.TextPipelineOutput`. -/
structure TextPipelineOutput where
  raw_transcript : String
  dominant_language : String
  turns : List ProcessedTurn
  all_entities : List NamedEntity
  speaker_count : Nat
deriving DecidableEq

/-! ## External collaborators -/

/-- A word of a Stanza sentence: surface form and (possibly missing)
lemma; `process_text` treats an empty lemma like a missing one because
Python `if word.lemma` is falsy on both `None` and `""`. -/
structure StWord where
  text : String
  lemmaVal : Option String

/-- An entity span of a Stanza sentence (`ent.text`, `ent.type`,
`ent.start_char`, `ent.end_char`). -/
structure StEnt where
  text : String
  etype : String
  start_char : Int
  end_char : Int

/-- A Stanza sentence as consumed by `process_text`. -/
structure StSentence where
  words : List StWord
  ents : List StEnt

/-- A Stanza document: the `doc.sentences` list. -/
abbrev StDoc := List StSentence

/-- The external collaborators of one pipeline run.  `stanza lang text =
none` models the `try` block of `process_text` (pipeline construction or
document processing) raising; `rawDetect text = none` models the
underlying langdetect call raising.  `nfc` is `unicodedata.normalize
("NFC", ·)` and `lower` is the runtime's Unicode `str.lower()` used on
entity text by the deduplication key — both are Unicode algorithms of the
runtime, external to the repository, modelled abstractly like the other
collaborators. -/
structure Collab where
  nfc : String → String
  lower : String → String
  rawDetect : String → Option (String × ℚ)
  dominantLang : List String → String
  stanza : String → String → Option StDoc

/-- Modelled from the spec: `app/text_pipeline/language_detector.py` is not
under `src/`.  Per §4.4/§7 a per-turn language-detection failure is recovered
locally (the collaborator boundary never propagates it) and the turn keeps
fallback values; the fallback pair is modelled as `("unknown", 0)`, within the
§6 interface `detect_language(text) -> (language_code, confidence ∈ [0,1])`. -/
def detect_language (raw : String → Option (String × ℚ)) (text : String) :
    String × ℚ :=
  (raw text).getD ("unknown", 0)

/-! ## NLP processor (`nlp_processor.py`) -/

/-- Replace each maximal run of `p`-characters by a single space,
modelling `re.sub(pattern, " ", s)` for a character-class-plus pattern;
the flag records whether the previous character was part of a run. -/
def collapseAux (p : Char → Bool) : Bool → List Char → List Char
  | _, [] => []
  | prevRun, c :: rest =>
    if p c then
      if prevRun then collapseAux p true rest
      else ' ' :: collapseAux p true rest
    else c :: collapseAux p false rest

/-- `re.sub` of a `[...]+` class by a single space over a whole string. -/
def collapseRuns (p : Char → Bool) (s : String) : String :=
  ⟨collapseAux p false s.data⟩

/-- The class `[^\S\n\r\t ]` of `clean_text`: whitespace characters other
than newline, carriage return, tab and space. -/
def exoticWs (c : Char) : Bool :=
  pyWs c && !(['\n', '\r', '\t', ' '].contains c)

/-- `clean_text` of `nlp_processor.py`: NFC-normalise (the external
`unicodedata.normalize` is the `nfc` parameter), apply
`re.sub(r"[^\S\n\r\t ]+", " ", ·)`, then `re.sub(r"\s+", " ", ·)`, then
`str.strip()`. -/
def clean_text (nfc : String → String) (text : String) : String :=
  pyStrip (collapseRuns pyWs (collapseRuns exoticWs (nfc text)))

/-- `STANZA_SUPPORTED` (a Python set; modelled as a list, only membership
is used). -/
def STANZA_SUPPORTED : List String :=
  ["en", "hi", "zh", "fr", "de", "es", "ar", "ja"]

/-- `_resolve_nlp_lang`: map a detected code to a Stanza model id,
falling back to `"en"`. -/
def _resolve_nlp_lang (detected_lang : String) : String :=
  if STANZA_SUPPORTED.contains detected_lang then detected_lang else "en"

/-- The words of a document, in the order of the
`for sentence in doc.sentences: for word in sentence.words:` loops. -/
def docWords : StDoc → List StWord
  | [] => []
  | s :: rest => s.words ++ docWords rest

/-- The entity spans of a document, in loop order. -/
def docEnts : StDoc → List StEnt
  | [] => []
  | s :: rest => s.ents ++ docEnts rest

/-- The dictionary returned by `process_text`. -/
structure NLPResult where
  cleaned_text : String
  lemmatized_text : String
  tokens : List String
  entities : List NamedEntity
deriving DecidableEq

/-- `process_text`: clean, resolve the model language, run Stanza; if the
Stanza block raises (`stanza ... = none`), return the degraded dictionary
with the cleaned text, its whitespace split and no entities. -/
def process_text (env : Collab) (text : String) (lang : String) : NLPResult :=
  let cleaned := clean_text env.nfc text
  let nlp_lang := _resolve_nlp_lang lang
  match env.stanza nlp_lang cleaned with
  | none =>
    { cleaned_text := cleaned
      lemmatized_text := cleaned
      tokens := pySplit cleaned
      entities := [] }
  | some doc =>
    { cleaned_text := cleaned
      lemmatized_text := String.intercalate " "
        ((docWords doc).map fun w =>
          match w.lemmaVal with
          | none => w.text
          | some l => if l = "" then w.text else l)
      tokens := (docWords doc).map (fun w => w.text)
      entities := (docEnts doc).map fun e =>
        { text := e.text, label := e.etype,
          start_char := e.start_char, end_char := e.end_char } }

/-! ## Role and speaker-id resolution (`__init__.py`) -/

/-- First-match association-list lookup, modelling `dict.get` (keys are
unique in every dictionary the pipeline builds). -/
def alookup {β : Type} : List (String × β) → String → Option β
  | [], _ => none
  | (k, v) :: rest, key => if k = key then some v else alookup rest key

/-- `_ROLE_MAP`. -/
def _ROLE_MAP : List (String × Role) :=
  [("agent", .agent), ("representative", .agent), ("rep", .agent),
   ("banker", .agent), ("officer", .agent), ("executive", .agent),
   ("support", .agent),
   ("customer", .customer), ("client", .customer), ("caller", .customer),
   ("user", .customer)]

/-- `_resolve_role`: `_ROLE_MAP.get(label.lower().strip(), Role.unknown)`. -/
def _resolve_role (label : String) : Role :=
  (alookup _ROLE_MAP (pyStrip (strLower label))).getD Role.unknown

/-- The speaker-id string `f"{key}_{idx}"`. -/
def mkId (key : String) (idx : Nat) : String := key ++ "_" ++ natToDec idx

/-- `_make_speaker_id`: read the per-role counter (a `collections.Counter`,
so a missing key counts 0), build `f"{key}_{idx}"` and return the id with
the incremented counter (the Python mutation made explicit). -/
def _make_speaker_id (role : Role) (role_counter : String → Nat) :
    String × (String → Nat) :=
  let key := strUpper role.value
  let idx := role_counter key
  (mkId key idx, fun k => if k = key then idx + 1 else role_counter k)

/-! ## Orchestrator (`run_text_pipeline`) -/

/-- Lookup in the `seen_speakers` dictionary. -/
def lookupSeen (seen : List (String × String)) (label : String) :
    Option String :=
  alookup seen label

/-- State threaded through the turn loop of `run_text_pipeline`:
the processed turns, the running entity list, the role counter, the
`seen_speakers` label→id dictionary (insertion-ordered), and — as the
observable trace of the allocator — the speaker id computed for each turn
(the source computes `speaker_id` per turn; `ProcessedTurn` has no field
for it, so the trace records it). -/
structure LoopState where
  turns : List ProcessedTurn
  allEnts : List NamedEntity
  counter : String → Nat
  seen : List (String × String)
  ids : List String

/-- The empty state at the start of a run. -/
def initState : LoopState :=
  { turns := [], allEnts := [], counter := fun _ => 0, seen := [], ids := [] }

/-- One element of the zipped iteration: `((label, text), (lang, conf))`. -/
abbrev TurnPair := (String × String) × (String × ℚ)

/-- The `ProcessedTurn` built in iteration `idx` (every field of the
constructor call in `run_text_pipeline`; none depends on the loop
state except the index). -/
def mkTurn (env : Collab) (idx : Nat) (x : TurnPair) : ProcessedTurn :=
  let nlp_result := process_text env x.1.2 x.2.1
  { turn_index := idx
    speaker_label := x.1.1
    role := _resolve_role x.1.1
    original_text := x.1.2
    cleaned_text := nlp_result.cleaned_text
    lemmatized_text := nlp_result.lemmatized_text
    language := x.2.1
    language_confidence := x.2.2
    entities := nlp_result.entities
    tokens := nlp_result.tokens }

/-- One iteration of the turn loop: look the label up in `seen_speakers`,
allocating a fresh id (and bumping the role counter) when absent; append
the processed turn and extend the running entity list. -/
def pipelineStep (env : Collab) (idx : Nat) (s : LoopState) (x : TurnPair) :
    LoopState :=
  match lookupSeen s.seen x.1.1 with
  | some sid =>
    { turns := s.turns ++ [mkTurn env idx x]
      allEnts := s.allEnts ++ (process_text env x.1.2 x.2.1).entities
      counter := s.counter
      seen := s.seen
      ids := s.ids ++ [sid] }
  | none =>
    let p := _make_speaker_id (_resolve_role x.1.1) s.counter
    { turns := s.turns ++ [mkTurn env idx x]
      allEnts := s.allEnts ++ (process_text env x.1.2 x.2.1).entities
      counter := p.2
      seen := s.seen ++ [(x.1.1, p.1)]
      ids := s.ids ++ [p.1] }

/-- The `for idx, ((label, text), (lang, conf)) in enumerate(zip(...))`
loop. -/
def pipelineLoop (env : Collab) : Nat → LoopState → List TurnPair → LoopState
  | _, s, [] => s
  | idx, s, x :: xs => pipelineLoop env (idx + 1) (pipelineStep env idx s x) xs

/-- The zipped iteration list `zip(raw_turns, turn_langs)` where
`turn_langs = [detect_language(text) for _, text in raw_turns]`. -/
def zippedTurns (env : Collab) (transcript : String) : List TurnPair :=
  let raw_turns := _parse_turns transcript
  raw_turns.zip (raw_turns.map fun p => detect_language env.rawDetect p.2)

/-- The loop state after processing a whole transcript. -/
def pipelineState (env : Collab) (transcript : String) : LoopState :=
  pipelineLoop env 0 initState (zippedTurns env transcript)

/-- The composite deduplication key `(ent.text.lower(), ent.label)`;
`lower` is the runtime's Unicode `str.lower()`. -/
def entKey (lower : String → String) (e : NamedEntity) : String × String :=
  (lower e.text, e.label)

/-- The deduplication loop of `run_text_pipeline`: keep an entity only if
its key is not in `seen_ent_keys` (the Python set is modelled by the list
of inserted keys). -/
def dedupGo (lower : String → String)
    (seen_ent_keys : List (String × String)) :
    List NamedEntity → List NamedEntity
  | [] => []
  | e :: rest =>
    if seen_ent_keys.contains (entKey lower e) then
      dedupGo lower seen_ent_keys rest
    else e :: dedupGo lower (entKey lower e :: seen_ent_keys) rest

/-- Cross-turn entity deduplication (same lowered text + label, first
occurrence wins). -/
def dedupEntities (lower : String → String) (ents : List NamedEntity) :
    List NamedEntity :=
  dedupGo lower [] ents

/-- The `TextPipelineOutput` assembled on the success path. -/
def pipelineOutput (env : Collab) (transcript : String) : TextPipelineOutput :=
  let s := pipelineState env transcript
  { raw_transcript := transcript
    dominant_language := env.dominantLang ((_parse_turns transcript).map Prod.snd)
    turns := s.turns
    all_entities := dedupEntities env.lower s.allEnts
    speaker_count := s.seen.length }

/-- The `ValueError` message of the zero-turn case (quotes elided). -/
def parseErrMsg : String :=
  "Could not parse any speaker turns from the transcript. " ++
  "Expected format: Speaker: text (one turn per line)."

/-- `run_text_pipeline`: parse; raise (return `Except.error`) when no turn
was parsed; otherwise detect languages, process every turn, deduplicate
entities and assemble the output. -/
def run_text_pipeline (env : Collab) (transcript : String) :
    Except String TextPipelineOutput :=
  if _parse_turns transcript = [] then Except.error parseErrMsg
  else Except.ok (pipelineOutput env transcript)

/-! ## Verification infrastructure

Projections of the loop used to state and prove the claims, and sample
collaborators/transcripts for the concrete scenarios. -/

/-- Numeric value of a decimal digit character. -/
def digitVal (c : Char) : Nat := c.toNat - 48

/-- Decode a decimal digit list back to the number it denotes. -/
def decodeDec (l : List Char) : Nat :=
  l.foldl (fun a c => 10 * a + digitVal c) 0

/-- The three possible counter keys `role.value.upper()`. -/
def speakerKeys : List String := ["AGENT", "CUSTOMER", "UNKNOWN"]

/-- The counter key determined by a label. -/
def keyOf (label : String) : String := strUpper (_resolve_role label).value

/-- The speaker-allocation part of the turn loop in isolation: fold the
label sequence over the counter and the `seen_speakers` dictionary,
returning the final counter, the final dictionary and the per-turn id
trace. -/
def speakerFold (c : String → Nat) (seen : List (String × String)) :
    List String → (String → Nat) × List (String × String) × List String
  | [] => (c, seen, [])
  | l :: ls =>
    match lookupSeen seen l with
    | some sid =>
      let r := speakerFold c seen ls
      (r.1, r.2.1, sid :: r.2.2)
    | none =>
      let p := _make_speaker_id (_resolve_role l) c
      let r := speakerFold p.2 (seen ++ [(l, p.1)]) ls
      (r.1, r.2.1, p.1 :: r.2.2)

/-- Invariant of the speaker registry: labels are distinct, ids are
distinct, and every id is `mkId` of its label's key at an index below the
counter of that key. -/
def RegInv (c : String → Nat) (seen : List (String × String)) : Prop :=
  (seen.map Prod.fst).Nodup ∧ (seen.map Prod.snd).Nodup ∧
    ∀ p ∈ seen, ∃ n, p.2 = mkId (keyOf p.1) n ∧ n < c (keyOf p.1)

/-- The processed turns contributed by the loop from index `idx` on. -/
def turnsFrom (env : Collab) (idx : Nat) : List TurnPair → List ProcessedTurn
  | [] => []
  | x :: xs => mkTurn env idx x :: turnsFrom env (idx + 1) xs

/-- The entities accumulated by the loop, turn after turn. -/
def entsFrom (env : Collab) : List TurnPair → List NamedEntity
  | [] => []
  | x :: xs => (process_text env x.1.2 x.2.1).entities ++ entsFrom env xs

/-- Sample collaborators: NFC is the identity on the ASCII samples, the
language detector and the Stanza pipeline raise on every call. -/
def env0 : Collab :=
  { nfc := id
    lower := strLower
    rawDetect := fun _ => none
    dominantLang := fun _ => "unknown"
    stanza := fun _ _ => none }

/-- Sample collaborators whose NLP pipeline reports the same person entity
twice, in different letter cases, for every turn. -/
def envDup : Collab :=
  { nfc := id
    lower := strLower
    rawDetect := fun _ => some ("en", 1)
    dominantLang := fun _ => "en"
    stanza := fun _ _ =>
      some [{ words := []
              ents := [{ text := "Rahul Menon", etype := "PERSON",
                         start_char := 0, end_char := 11 },
                       { text := "RAHUL MENON", etype := "PERSON",
                         start_char := 20, end_char := 31 }] }] }

/-- The first scenario transcript of §8. -/
def sampleT1 : String :=
  "Agent: Good morning.\nCustomer: I lost my card.\nAgent: I can help with that."

/-- The continuation-line scenario transcript of §8. -/
def sampleT2 : String := "Agent: Hello,\nhow can I help?\nCustomer: Thanks."

/-! ## Decimal rendering is injective -/

theorem digitVal_digitChar {m : Nat} (h : m < 10) :
    digitVal (digitChar m) = m := by
  interval_cases m <;> rfl

theorem decodeDec_append (l : List Char) (c : Char) :
    decodeDec (l ++ [c]) = 10 * decodeDec l + digitVal c := by
  simp [decodeDec, List.foldl_append]

theorem decodeDec_core (fuel : Nat) :
    ∀ n, n < fuel → decodeDec (decDigitsCore fuel n) = n := by
  induction fuel with
  | zero => omega
  | succ fuel ih =>
    intro n hn
    by_cases h10 : n < 10
    · simp only [decDigitsCore, if_pos h10]
      have : decodeDec [digitChar n] = digitVal (digitChar n) := by
        simp [decodeDec]
      rw [this, digitVal_digitChar h10]
    · have hpos : 0 < n := by omega
      have hdiv : n / 10 < n := Nat.div_lt_self hpos (by omega)
      have hfuel : n / 10 < fuel := by omega
      have hmod : n % 10 < 10 := Nat.mod_lt _ (by omega)
      simp only [decDigitsCore, if_neg h10]
      rw [decodeDec_append, ih _ hfuel, digitVal_digitChar hmod]
      omega

theorem decodeDec_natToDec (n : Nat) : decodeDec (natToDec n).data = n :=
  decodeDec_core (n + 1) n (Nat.lt_succ_self n)

theorem natToDec_data_inj {n1 n2 : Nat}
    (h : (natToDec n1).data = (natToDec n2).data) : n1 = n2 := by
  rw [← decodeDec_natToDec n1, ← decodeDec_natToDec n2, h]

theorem mkId_data (k : String) (n : Nat) :
    (mkId k n).data = k.data ++ ('_' :: (natToDec n).data) := by
  have h : (mkId k n).data = (k.data ++ ['_']) ++ (natToDec n).data := rfl
  rw [h, List.append_assoc]
  rfl

theorem mkId_inj {k1 k2 : String} {n1 n2 : Nat}
    (h1 : k1 ∈ speakerKeys) (h2 : k2 ∈ speakerKeys)
    (h : mkId k1 n1 = mkId k2 n2) : k1 = k2 ∧ n1 = n2 := by
  have hd := congrArg String.data h
  rw [mkId_data, mkId_data] at hd
  fin_cases h1 <;> fin_cases h2 <;>
    first
    | · refine ⟨rfl, ?_⟩
        have hc := List.append_cancel_left hd
        exact natToDec_data_inj (by simpa using hc)
    | · exfalso
        have hh := congrArg List.head? hd
        simp at hh

/-! ## Association-list lookup -/

theorem alookup_eq_none {β : Type} {l : List (String × β)} {k : String} :
    alookup l k = none ↔ k ∉ l.map Prod.fst := by
  induction l with
  | nil => simp [alookup]
  | cons p rest ih =>
    simp only [alookup, List.map_cons, List.mem_cons]
    by_cases h : p.1 = k
    · simp [h]
    · rw [if_neg h, ih]
      constructor
      · intro hnr hor
        rcases hor with h1 | h1
        · exact h h1.symm
        · exact hnr h1
      · intro hno
        exact fun hr => hno (Or.inr hr)

theorem alookup_mem {β : Type} {l : List (String × β)} {k : String} {v : β}
    (h : alookup l k = some v) : (k, v) ∈ l := by
  induction l with
  | nil => simp [alookup] at h
  | cons p rest ih =>
    by_cases hk : p.1 = k
    · simp only [alookup, if_pos hk] at h
      have hv : v = p.2 := by injection h with h; exact h.symm
      subst hv
      rw [← hk]
      exact List.mem_cons_self _ _
    · simp only [alookup, if_neg hk] at h
      exact List.mem_cons_of_mem _ (ih h)

theorem alookup_isSome_of_mem {β : Type} {l : List (String × β)} {k : String}
    (h : k ∈ l.map Prod.fst) : ∃ v, alookup l k = some v := by
  induction l with
  | nil => simp at h
  | cons p rest ih =>
    by_cases hk : p.1 = k
    · exact ⟨p.2, by simp [alookup, hk]⟩
    · simp only [List.map_cons, List.mem_cons] at h
      rcases h with h | h
      · exact absurd h.symm hk
      · simpa [alookup, hk] using ih h

theorem alookup_append_left {β : Type} {l r : List (String × β)} {k : String}
    {v : β} (h : alookup l k = some v) : alookup (l ++ r) k = some v := by
  induction l with
  | nil => simp [alookup] at h
  | cons p rest ih =>
    by_cases hk : p.1 = k <;>
      simp only [alookup, if_pos, if_neg, hk, List.cons_append] at h ⊢ <;>
      simp_all [alookup]

theorem alookup_append_right {β : Type} {l r : List (String × β)} {k : String}
    (h : alookup l k = none) : alookup (l ++ r) k = alookup r k := by
  induction l with
  | nil => rfl
  | cons p rest ih =>
    by_cases hk : p.1 = k
    · simp [alookup, hk] at h
    · simp only [alookup, if_neg hk, List.cons_append] at h ⊢
      exact ih h

/-! ## The speaker registry invariant -/

theorem keyOf_mem (l : String) : keyOf l ∈ speakerKeys := by
  unfold keyOf
  cases _resolve_role l <;> decide

/-- Allocating a fresh id preserves the registry invariant. -/
theorem regInv_step {c : String → Nat} {seen : List (String × String)}
    (hInv : RegInv c seen) (l : String)
    (hnone : lookupSeen seen l = none) :
    RegInv (_make_speaker_id (_resolve_role l) c).2
      (seen ++ [(l, (_make_speaker_id (_resolve_role l) c).1)]) := by
  obtain ⟨hKeys, hIds, hEnt⟩ := hInv
  have hlnot : l ∉ seen.map Prod.fst := alookup_eq_none.mp hnone
  have hkey : (_make_speaker_id (_resolve_role l) c).1 = mkId (keyOf l) (c (keyOf l)) := rfl
  have hbump : ∀ k, (_make_speaker_id (_resolve_role l) c).2 k =
      if k = keyOf l then c (keyOf l) + 1 else c k := fun k => rfl
  refine ⟨?_, ?_, ?_⟩
  · simp only [List.map_append, List.map_cons, List.map_nil]
    rw [List.nodup_append]
    refine ⟨hKeys, List.nodup_singleton l, ?_⟩
    intro a ha hb
    simp only [List.mem_singleton] at hb
    exact hlnot (hb ▸ ha)
  · simp only [List.map_append, List.map_cons, List.map_nil]
    rw [List.nodup_append]
    refine ⟨hIds, List.nodup_singleton _, ?_⟩
    intro a ha hb
    simp only [List.mem_singleton] at hb
    subst hb
    obtain ⟨p, hp, hpa⟩ := List.mem_map.mp ha
    obtain ⟨n, hn, hlt⟩ := hEnt p hp
    rw [hkey] at hpa
    obtain ⟨hkeq, hneq⟩ := mkId_inj (keyOf_mem p.1) (keyOf_mem l) (by rw [← hpa, hn])
    rw [hkeq] at hlt
    omega
  · intro p hp
    rcases List.mem_append.mp hp with hp | hp
    · obtain ⟨n, hn, hlt⟩ := hEnt p hp
      refine ⟨n, hn, ?_⟩
      rw [hbump]
      by_cases hkk : keyOf p.1 = keyOf l
      · rw [if_pos hkk, ← hkk]
        omega
      · rw [if_neg hkk]
        exact hlt
    · simp only [List.mem_singleton] at hp
      subst hp
      refine ⟨c (keyOf l), hkey, ?_⟩
      rw [hbump]
      simp

/-- Master induction over the speaker allocation: the invariant is
preserved, established lookups are stable, the trace has one id per label,
the trace entries are the final lookups of the labels, and the final keys
are the initial keys plus the processed labels. -/
theorem speakerFold_master (ls : List String) :
    ∀ (c : String → Nat) (seen : List (String × String)), RegInv c seen →
    RegInv (speakerFold c seen ls).1 (speakerFold c seen ls).2.1 ∧
    (∀ l v, lookupSeen seen l = some v →
      lookupSeen (speakerFold c seen ls).2.1 l = some v) ∧
    (speakerFold c seen ls).2.2.length = ls.length ∧
    (∀ (k : Nat) (l : String), ls[k]? = some l →
      lookupSeen (speakerFold c seen ls).2.1 l = (speakerFold c seen ls).2.2[k]?) ∧
    (∀ l, l ∈ (speakerFold c seen ls).2.1.map Prod.fst ↔
      l ∈ seen.map Prod.fst ∨ l ∈ ls) := by
  induction ls with
  | nil =>
    intro c seen hInv
    refine ⟨hInv, fun l v hv => hv, rfl, ?_, ?_⟩
    · intro k l hk
      simp at hk
    · intro l
      simp [speakerFold]
  | cons l0 ls ih =>
    intro c seen hInv
    cases h0 : lookupSeen seen l0 with
    | some sid =>
      obtain ⟨ih1, ih2, ih3, ih4, ih5⟩ := ih c seen hInv
      have hmem0 : l0 ∈ seen.map Prod.fst :=
        List.mem_map_of_mem Prod.fst (alookup_mem h0)
      refine ⟨?_, ?_, ?_, ?_, ?_⟩ <;>
        simp only [speakerFold, h0]
      · exact ih1
      · exact ih2
      · simp [ih3]
      · intro k l hk
        match k with
        | 0 =>
          simp only [List.getElem?_cons_zero, Option.some.injEq] at hk
          subst hk
          simpa using ih2 l0 sid h0
        | k + 1 =>
          simp only [List.getElem?_cons_succ] at hk ⊢
          exact ih4 k l hk
      · intro l
        rw [ih5]
        simp only [List.mem_cons]
        constructor
        · rintro (h | h)
          · exact Or.inl h
          · exact Or.inr (Or.inr h)
        · rintro (h | h | h)
          · exact Or.inl h
          · exact Or.inl (h ▸ hmem0)
          · exact Or.inr h
    | none =>
      have hInv1 := regInv_step hInv l0 h0
      obtain ⟨ih1, ih2, ih3, ih4, ih5⟩ :=
        ih (_make_speaker_id (_resolve_role l0) c).2
          (seen ++ [(l0, (_make_speaker_id (_resolve_role l0) c).1)]) hInv1
      have hl0 : lookupSeen
          (seen ++ [(l0, (_make_speaker_id (_resolve_role l0) c).1)]) l0 =
          some (_make_speaker_id (_resolve_role l0) c).1 := by
        rw [lookupSeen, alookup_append_right h0]
        simp [alookup]
      refine ⟨?_, ?_, ?_, ?_, ?_⟩ <;>
        simp only [speakerFold, h0]
      · exact ih1
      · intro l v hv
        exact ih2 l v (alookup_append_left hv)
      · simp [ih3]
      · intro k l hk
        match k with
        | 0 =>
          simp only [List.getElem?_cons_zero, Option.some.injEq] at hk
          subst hk
          simpa using ih2 l0 _ hl0
        | k + 1 =>
          simp only [List.getElem?_cons_succ] at hk ⊢
          exact ih4 k l hk
      · intro l
        rw [ih5]
        simp only [List.map_append, List.map_cons, List.map_nil,
          List.mem_append, List.mem_cons, List.not_mem_nil, or_false,
          List.mem_singleton]
        constructor
        · rintro ((h | h) | h)
          · exact Or.inl h
          · exact Or.inr (Or.inl h)
          · exact Or.inr (Or.inr h)
        · rintro (h | h | h)
          · exact Or.inl (Or.inl h)
          · exact Or.inl (Or.inr h)
          · exact Or.inr h

/-! ## Projections of the turn loop -/

theorem loop_turns (env : Collab) (L : List TurnPair) :
    ∀ (idx : Nat) (s : LoopState),
    (pipelineLoop env idx s L).turns = s.turns ++ turnsFrom env idx L := by
  induction L with
  | nil => intro idx s; simp [pipelineLoop, turnsFrom]
  | cons x xs ih =>
    intro idx s
    simp only [pipelineLoop]
    rw [ih]
    cases h : lookupSeen s.seen x.1.1 <;>
      simp [pipelineStep, h, turnsFrom]

theorem loop_ents (env : Collab) (L : List TurnPair) :
    ∀ (idx : Nat) (s : LoopState),
    (pipelineLoop env idx s L).allEnts = s.allEnts ++ entsFrom env L := by
  induction L with
  | nil => intro idx s; simp [pipelineLoop, entsFrom]
  | cons x xs ih =>
    intro idx s
    simp only [pipelineLoop]
    rw [ih]
    cases h : lookupSeen s.seen x.1.1 <;>
      simp [pipelineStep, h, entsFrom]

theorem loop_speaker (env : Collab) (L : List TurnPair) :
    ∀ (idx : Nat) (s : LoopState),
    (pipelineLoop env idx s L).counter =
      (speakerFold s.counter s.seen (L.map fun x => x.1.1)).1 ∧
    (pipelineLoop env idx s L).seen =
      (speakerFold s.counter s.seen (L.map fun x => x.1.1)).2.1 ∧
    (pipelineLoop env idx s L).ids =
      s.ids ++ (speakerFold s.counter s.seen (L.map fun x => x.1.1)).2.2 := by
  induction L with
  | nil => intro idx s; simp [pipelineLoop, speakerFold]
  | cons x xs ih =>
    intro idx s
    simp only [pipelineLoop, List.map_cons]
    obtain ⟨ihc, ihs, ihi⟩ := ih (idx + 1) (pipelineStep env idx s x)
    cases h : lookupSeen s.seen x.1.1 with
    | some sid =>
      simp only [speakerFold, h]
      refine ⟨?_, ?_, ?_⟩
      · rw [ihc]
        simp [pipelineStep, h]
      · rw [ihs]
        simp [pipelineStep, h]
      · rw [ihi]
        simp [pipelineStep, h]
    | none =>
      simp only [speakerFold, h]
      refine ⟨?_, ?_, ?_⟩
      · rw [ihc]
        simp [pipelineStep, h]
      · rw [ihs]
        simp [pipelineStep, h]
      · rw [ihi]
        simp [pipelineStep, h]

/-- Every element of the zipped iteration pairs a raw turn with the
detection result on that turn's text. -/
theorem zipped_snd (env : Collab) (t : String) :
    ∀ x ∈ zippedTurns env t, x.2 = detect_language env.rawDetect x.1.2 := by
  unfold zippedTurns
  generalize _parse_turns t = raw
  induction raw with
  | nil => intro x hx; simp at hx
  | cons p rest ih =>
    intro x hx
    simp only [List.map_cons, List.zip_cons_cons, List.mem_cons] at hx
    rcases hx with hx | hx
    · rw [hx]
    · exact ih x hx

/-- The labels of the zipped iteration are the labels of the parse. -/
theorem zipped_labels (env : Collab) (t : String) :
    (zippedTurns env t).map (fun x => x.1.1) =
      (_parse_turns t).map Prod.fst := by
  unfold zippedTurns
  generalize _parse_turns t = raw
  induction raw with
  | nil => rfl
  | cons p rest ih =>
    simp only [List.map_cons, List.zip_cons_cons]
    congr 1
    try simpa using ih

/-- The zipped iteration has one element per parsed turn. -/
theorem zipped_length (env : Collab) (t : String) :
    (zippedTurns env t).length = (_parse_turns t).length := by
  have := congrArg List.length (zipped_labels env t)
  simpa using this

theorem turnsFrom_length (env : Collab) (L : List TurnPair) :
    ∀ idx : Nat, (turnsFrom env idx L).length = L.length := by
  induction L with
  | nil => intro idx; rfl
  | cons x xs ih => intro idx; simp [turnsFrom, ih]

/-- Pointwise properties of the emitted turns: any predicate that holds of
`mkTurn` at every iteration element holds of every emitted turn. -/
theorem turnsFrom_forall (env : Collab) (Q : ProcessedTurn → Prop)
    (L : List TurnPair) :
    ∀ idx : Nat, (∀ (i : Nat), ∀ x ∈ L, Q (mkTurn env i x)) →
    ∀ turn ∈ turnsFrom env idx L, Q turn := by
  induction L with
  | nil => intro idx _ turn ht; simp [turnsFrom] at ht
  | cons x xs ih =>
    intro idx hQ turn ht
    simp only [turnsFrom, List.mem_cons] at ht
    rcases ht with ht | ht
    · rw [ht]
      exact hQ idx x (List.mem_cons_self x xs)
    · exact ih (idx + 1) (fun i y hy => hQ i y (List.mem_cons_of_mem x hy)) turn ht

/-! ## Turn count equals label-line count -/

theorem flushTurn_length (lab : Option String) (acc : List String)
    (h : lab.isSome → acc ≠ []) :
    (flushTurn lab acc).length = if lab.isSome then 1 else 0 := by
  cases lab with
  | none => rfl
  | some l =>
    have hne := h rfl
    simp [flushTurn, hne]

/-- Each label-matching line contributes exactly one turn: once a label is
open its accumulated-lines list is never empty, so every flush appends. -/
theorem parseGo_length (lines : List String) :
    ∀ (lab : Option String) (acc : List String), (lab.isSome → acc ≠ []) →
    (parseGo lab acc lines).length =
      (lines.filter isLabelLine).length + (if lab.isSome then 1 else 0) := by
  induction lines with
  | nil =>
    intro lab acc hla
    simp [parseGo, flushTurn_length lab acc hla]
  | cons raw rest ih =>
    intro lab acc hla
    simp only [parseGo]
    by_cases hb : pyStrip raw = ""
    · have hlab : isLabelLine raw = false := by
        simp [isLabelLine, hb, matchTurn]
      rw [if_pos hb]
      simp only [List.filter_cons, hlab, Bool.false_eq_true, if_neg]
      exact ih lab acc hla
    · rw [if_neg hb]
      cases hm : matchTurn (pyStrip raw) with
      | some g =>
        have hlab : isLabelLine raw = true := by
          simp [isLabelLine, hm]
        have hrec := ih (some (pyStrip g.1)) [pyStrip g.2]
          (fun _ => List.cons_ne_nil _ _)
        simp only [List.filter_cons, hlab, if_pos]
        rw [List.length_append, List.length_cons,
          flushTurn_length lab acc hla, hrec]
        have h1 : (if (some (pyStrip g.1)).isSome = true then (1 : Nat) else 0) = 1 := rfl
        rw [h1]
        omega
      | none =>
        have hlab : isLabelLine raw = false := by
          simp [isLabelLine, hm]
        simp only [List.filter_cons, hlab, Bool.false_eq_true, if_neg]
        cases lab with
        | some l =>
          have hrec := ih (some l) (acc ++ [pyStrip raw])
            (fun _ => by simp)
          simpa using hrec
        | none =>
          exact ih none acc (fun h => by simp at h)

theorem parse_turns_length (t : String) :
    (_parse_turns t).length = countLabelLines t := by
  have h := parseGo_length (splitLines t) none []
    (fun h => by simp at h)
  simpa [_parse_turns, countLabelLines] using h

/-! ## Entity deduplication -/

theorem dedupGo_not_seen (lower : String → String) (l : List NamedEntity) :
    ∀ (seen : List (String × String)) (e : NamedEntity),
    e ∈ dedupGo lower seen l → entKey lower e ∉ seen := by
  induction l with
  | nil => intro seen e he; simp [dedupGo] at he
  | cons a rest ih =>
    intro seen e he
    simp only [dedupGo] at he
    by_cases hc : seen.contains (entKey lower a)
    · rw [if_pos hc] at he
      exact ih seen e he
    · rw [if_neg hc] at he
      rcases List.mem_cons.mp he with he | he
      · subst he
        intro hmem
        exact hc (by simpa using hmem)
      · intro hmem
        exact ih _ e he (List.mem_cons_of_mem _ hmem)

theorem dedupGo_pairwise (lower : String → String) (l : List NamedEntity) :
    ∀ seen : List (String × String),
    (dedupGo lower seen l).Pairwise
      (fun a b => entKey lower a ≠ entKey lower b) := by
  induction l with
  | nil => intro seen; simp [dedupGo]
  | cons a rest ih =>
    intro seen
    simp only [dedupGo]
    by_cases hc : seen.contains (entKey lower a)
    · rw [if_pos hc]
      exact ih seen
    · rw [if_neg hc]
      refine List.Pairwise.cons ?_ (ih _)
      intro b hb heq
      exact dedupGo_not_seen lower rest _ b hb (heq ▸ List.mem_cons_self _ _)

theorem dedupGo_sublist (lower : String → String) (l : List NamedEntity) :
    ∀ seen : List (String × String), (dedupGo lower seen l).Sublist l := by
  induction l with
  | nil => intro seen; simp [dedupGo]
  | cons a rest ih =>
    intro seen
    simp only [dedupGo]
    by_cases hc : seen.contains (entKey lower a)
    · rw [if_pos hc]
      exact (ih seen).cons a
    · rw [if_neg hc]
      exact (ih _).cons₂ a

theorem dedupGo_first_occ (lower : String → String) (l : List NamedEntity) :
    ∀ (seen : List (String × String)) (e : NamedEntity),
    e ∈ dedupGo lower seen l →
    ∃ pre post, l = pre ++ e :: post ∧
      ∀ d ∈ pre, entKey lower d ∈ seen ∨ entKey lower d ≠ entKey lower e := by
  induction l with
  | nil => intro seen e he; simp [dedupGo] at he
  | cons a rest ih =>
    intro seen e he
    simp only [dedupGo] at he
    by_cases hc : seen.contains (entKey lower a)
    · rw [if_pos hc] at he
      obtain ⟨pre, post, heq, hpre⟩ := ih seen e he
      refine ⟨a :: pre, post, by rw [heq, List.cons_append], ?_⟩
      intro d hd
      rcases List.mem_cons.mp hd with hd | hd
      · subst hd
        exact Or.inl (by simpa using hc)
      · exact hpre d hd
    · rw [if_neg hc] at he
      rcases List.mem_cons.mp he with he | he
      · subst he
        exact ⟨[], rest, rfl, by simp⟩
      · obtain ⟨pre, post, heq, hpre⟩ := ih _ e he
        have hkea : entKey lower e ∉ entKey lower a :: seen :=
          dedupGo_not_seen lower rest _ e he
        have hkea1 : entKey lower e ≠ entKey lower a := by
          intro h
          exact hkea (h ▸ List.mem_cons_self _ _)
        refine ⟨a :: pre, post, by rw [heq, List.cons_append], ?_⟩
        intro d hd
        rcases List.mem_cons.mp hd with hd | hd
        · subst hd
          exact Or.inr (fun h => hkea1 h.symm)
        · rcases hpre d hd with h | h
          · rcases List.mem_cons.mp h with h | h
            · exact Or.inr (fun hde => hkea1 (hde.symm.trans h))
            · exact Or.inl h
          · exact Or.inr h

/-! ## Output projections -/

theorem output_turns (env : Collab) (t : String) :
    (pipelineOutput env t).turns = turnsFrom env 0 (zippedTurns env t) := by
  show (pipelineState env t).turns = _
  rw [pipelineState, loop_turns]
  rfl

theorem output_all_entities (env : Collab) (t : String) :
    (pipelineOutput env t).all_entities =
      dedupEntities env.lower (entsFrom env (zippedTurns env t)) := by
  show dedupEntities env.lower (pipelineState env t).allEnts = _
  rw [pipelineState, loop_ents]
  rfl

theorem run_ok (env : Collab) (t : String) (h : _parse_turns t ≠ []) :
    run_text_pipeline env t = Except.ok (pipelineOutput env t) := by
  rw [run_text_pipeline, if_neg h]

theorem run_error (env : Collab) (t : String) (h : _parse_turns t = []) :
    run_text_pipeline env t = Except.error parseErrMsg := by
  rw [run_text_pipeline, if_pos h]

theorem run_ok_inv (env : Collab) (t : String) (o : TextPipelineOutput)
    (ho : run_text_pipeline env t = Except.ok o) :
    _parse_turns t ≠ [] ∧ o = pipelineOutput env t := by
  by_cases hpe : _parse_turns t = []
  · rw [run_error env t hpe] at ho
    exact absurd ho (by simp)
  · rw [run_ok env t hpe] at ho
    refine ⟨hpe, ?_⟩
    injection ho with ho
    exact ho.symm

theorem regInv_init : RegInv initState.counter initState.seen := by
  refine ⟨?_, ?_, ?_⟩ <;> simp [initState]

/-! ## Claims -/

/-- C1: for the three-line scenario transcript, any behaviour of the
external collaborators yields exactly 3 turns whose per-turn speaker ids
are AGENT_0, CUSTOMER_0, AGENT_0 in that order (the third reusing the
first), and the output's speaker_count is 2. -/
theorem text_pipeline_scenario_ids (env : Collab) :
    (pipelineState env sampleT1).ids = ["AGENT_0", "CUSTOMER_0", "AGENT_0"] ∧
    run_text_pipeline env sampleT1 = Except.ok (pipelineOutput env sampleT1) ∧
    (pipelineOutput env sampleT1).turns.length = 3 ∧
    (pipelineOutput env sampleT1).speaker_count = 2 := by
  have hp : _parse_turns sampleT1 =
      [("Agent", "Good morning."), ("Customer", "I lost my card."),
       ("Agent", "I can help with that.")] := by decide
  have hlab : (zippedTurns env sampleT1).map (fun x => x.1.1) =
      ["Agent", "Customer", "Agent"] := by
    rw [zipped_labels, hp]
    rfl
  obtain ⟨hc, hs, hi⟩ := loop_speaker env (zippedTurns env sampleT1) 0 initState
  refine ⟨?_, ?_, ?_, ?_⟩
  · show (pipelineLoop env 0 initState (zippedTurns env sampleT1)).ids = _
    rw [hi, hlab]
    decide
  · exact run_ok env sampleT1 (by rw [hp]; decide)
  · rw [output_turns, turnsFrom_length, zipped_length, hp]
    rfl
  · show (pipelineState env sampleT1).seen.length = 2
    show (pipelineLoop env 0 initState (zippedTurns env sampleT1)).seen.length = 2
    rw [hs, hlab]
    decide

/-- C3: the pipeline fails with the fatal parse error exactly when the
parser produces zero turns, and otherwise returns the full assembled
output (no partial output exists). -/
theorem parse_failure_fatal_iff (env : Collab) (t : String) :
    (_parse_turns t = [] → run_text_pipeline env t = Except.error parseErrMsg) ∧
    (_parse_turns t ≠ [] →
      run_text_pipeline env t = Except.ok (pipelineOutput env t)) := by
  exact ⟨run_error env t, run_ok env t⟩

/-- C3 witness: the two branches at concrete inputs. -/
theorem parse_failure_fatal_iff_witness :
    run_text_pipeline env0 "no label lines here" = Except.error parseErrMsg ∧
    run_text_pipeline env0 sampleT1 = Except.ok (pipelineOutput env0 sampleT1) :=
  ⟨(parse_failure_fatal_iff env0 "no label lines here").1 (by decide),
   (parse_failure_fatal_iff env0 sampleT1).2 (by decide)⟩

/-- C2: within one run the label-to-speaker-id assignment is a function
(same label, same id) and injective (distinct labels, distinct ids), both
per registry entry and per turn occurrence, and speaker_count equals the
number of distinct labels seen. -/
theorem speaker_assignment_function_injective (env : Collab) (t : String) :
    (∀ l id1 id2, (l, id1) ∈ (pipelineState env t).seen →
      (l, id2) ∈ (pipelineState env t).seen → id1 = id2) ∧
    (∀ l1 l2 id, (l1, id) ∈ (pipelineState env t).seen →
      (l2, id) ∈ (pipelineState env t).seen → l1 = l2) ∧
    (∀ (i j : Nat) (l : String),
      ((_parse_turns t).map Prod.fst)[i]? = some l →
      ((_parse_turns t).map Prod.fst)[j]? = some l →
      (pipelineState env t).ids[i]? = (pipelineState env t).ids[j]?) ∧
    (∀ (i j : Nat) (l1 l2 : String),
      ((_parse_turns t).map Prod.fst)[i]? = some l1 →
      ((_parse_turns t).map Prod.fst)[j]? = some l2 → l1 ≠ l2 →
      (pipelineState env t).ids[i]? ≠ (pipelineState env t).ids[j]?) ∧
    (∀ o, run_text_pipeline env t = Except.ok o →
      o.speaker_count = ((_parse_turns t).map Prod.fst).toFinset.card) := by
  obtain ⟨hInv, hstab, hlen, hitem, hmem⟩ :=
    speakerFold_master ((zippedTurns env t).map fun x => x.1.1)
      initState.counter initState.seen regInv_init
  obtain ⟨hc, hs, hi⟩ := loop_speaker env (zippedTurns env t) 0 initState
  have hseen : (pipelineState env t).seen =
      (speakerFold initState.counter initState.seen
        ((zippedTurns env t).map fun x => x.1.1)).2.1 := hs
  have hids : (pipelineState env t).ids =
      (speakerFold initState.counter initState.seen
        ((zippedTurns env t).map fun x => x.1.1)).2.2 := by
    show (pipelineLoop env 0 initState (zippedTurns env t)).ids = _
    rw [hi]
    rfl
  have hlabels := zipped_labels env t
  refine ⟨?_, ?_, ?_, ?_, ?_⟩
  · intro l id1 id2 h1 h2
    rw [hseen] at h1 h2
    have := List.inj_on_of_nodup_map hInv.1 h1 h2 rfl
    exact congrArg Prod.snd this
  · intro l1 l2 id h1 h2
    rw [hseen] at h1 h2
    have := List.inj_on_of_nodup_map hInv.2.1 h1 h2 rfl
    exact congrArg Prod.fst this
  · intro i j l hi1 hj1
    rw [← hlabels] at hi1 hj1
    rw [hids, ← hitem i l hi1, ← hitem j l hj1]
  · intro i j l1 l2 hi1 hj1 hne hcontra
    rw [← hlabels] at hi1 hj1
    rw [hids, ← hitem i l1 hi1, ← hitem j l2 hj1] at hcontra
    have hm1 : l1 ∈ (speakerFold initState.counter initState.seen
        ((zippedTurns env t).map fun x => x.1.1)).2.1.map Prod.fst :=
      (hmem l1).mpr (Or.inr (List.getElem?_mem hi1))
    have hm2 : l2 ∈ (speakerFold initState.counter initState.seen
        ((zippedTurns env t).map fun x => x.1.1)).2.1.map Prod.fst :=
      (hmem l2).mpr (Or.inr (List.getElem?_mem hj1))
    obtain ⟨v1, hv1⟩ := alookup_isSome_of_mem hm1
    obtain ⟨v2, hv2⟩ := alookup_isSome_of_mem hm2
    have hv1s : lookupSeen (speakerFold initState.counter initState.seen
        ((zippedTurns env t).map fun x => x.1.1)).2.1 l1 = some v1 := hv1
    have hv2s : lookupSeen (speakerFold initState.counter initState.seen
        ((zippedTurns env t).map fun x => x.1.1)).2.1 l2 = some v2 := hv2
    rw [hv1s, hv2s] at hcontra
    injection hcontra with hv
    subst hv
    have hmem1 := alookup_mem hv1
    have hmem2 := alookup_mem hv2
    have := List.inj_on_of_nodup_map hInv.2.1 hmem1 hmem2 rfl
    exact hne (congrArg Prod.fst this)
  · intro o ho
    obtain ⟨hne, rfl⟩ := run_ok_inv env t o ho
    show (pipelineState env t).seen.length = _
    have hlm : (pipelineState env t).seen.length =
        ((pipelineState env t).seen.map Prod.fst).length :=
      (List.length_map _ _).symm
    rw [hlm, hseen]
    have hnd := hInv.1
    rw [← List.toFinset_card_of_nodup hnd]
    congr 1
    apply Finset.ext
    intro a
    simp only [List.mem_toFinset]
    rw [hmem a, hlabels]
    simp [initState]

/-- C2 witness: on the scenario transcript the first and third turns carry
the same label, hence the same id. -/
theorem speaker_assignment_function_injective_witness :
    (pipelineState env0 sampleT1).ids[0]? = (pipelineState env0 sampleT1).ids[2]? :=
  (speaker_assignment_function_injective env0 sampleT1).2.2.1 0 2 "Agent"
    (by decide) (by decide)

/-- C4: if the NLP collaborator raises on every call, `process_text`
still returns the degraded result — cleaned text, lemmatized text equal to
it, whitespace-split tokens, no entities — and the run completes. -/
theorem nlp_failure_degraded (env : Collab)
    (h : ∀ lang text : String, env.stanza lang text = none) :
    (∀ text lang, process_text env text lang =
      { cleaned_text := clean_text env.nfc text
        lemmatized_text := clean_text env.nfc text
        tokens := pySplit (clean_text env.nfc text)
        entities := [] }) ∧
    (∀ t, _parse_turns t ≠ [] →
      run_text_pipeline env t = Except.ok (pipelineOutput env t)) := by
  refine ⟨?_, fun t => run_ok env t⟩
  intro text lang
  simp only [process_text, h]

/-- C4 witness: the degraded result at a concrete input. -/
theorem nlp_failure_degraded_witness :
    process_text env0 " Hi   there " "en" =
      { cleaned_text := "Hi there", lemmatized_text := "Hi there",
        tokens := ["Hi", "there"], entities := [] } := by
  have h := (nlp_failure_degraded env0 (fun _ _ => rfl)).1 " Hi   there " "en"
  rw [h]
  decide

/-- C5: a raised exception inside per-turn language detection never aborts
the run — the affected turn is still emitted carrying the fallback
language/confidence, and the output is complete. -/
theorem detection_failure_recovered (env : Collab)
    (h : ∀ s, env.rawDetect s = none) (t : String)
    (hp : _parse_turns t ≠ []) :
    run_text_pipeline env t = Except.ok (pipelineOutput env t) ∧
    (pipelineOutput env t).turns.length = (_parse_turns t).length ∧
    ∀ turn ∈ (pipelineOutput env t).turns,
      turn.language = "unknown" ∧ turn.language_confidence = 0 := by
  refine ⟨run_ok env t hp, ?_, ?_⟩
  · rw [output_turns, turnsFrom_length, zipped_length]
  · rw [output_turns]
    refine turnsFrom_forall env
      (fun turn => turn.language = "unknown" ∧ turn.language_confidence = 0)
      (zippedTurns env t) 0 ?_
    intro i x hx
    have hx2 := zipped_snd env t x hx
    have hdet : detect_language env.rawDetect x.1.2 = ("unknown", 0) := by
      rw [detect_language, h]
      rfl
    constructor
    · show x.2.1 = "unknown"
      rw [hx2, hdet]
    · show x.2.2 = 0
      rw [hx2, hdet]

/-- C5 witness: a concrete run with an always-raising detector. -/
theorem detection_failure_recovered_witness :
    run_text_pipeline env0 sampleT1 = Except.ok (pipelineOutput env0 sampleT1) :=
  (detection_failure_recovered env0 (fun _ => rfl) sampleT1 (by decide)).1

theorem zipped_fst (env : Collab) (t : String) :
    (zippedTurns env t).map (fun x => x.1) = _parse_turns t := by
  unfold zippedTurns
  generalize _parse_turns t = raw
  induction raw with
  | nil => rfl
  | cons p rest ih =>
    simp only [List.map_cons, List.zip_cons_cons]
    congr 1
    try simpa using ih

theorem turnsFrom_map_original (env : Collab) (L : List TurnPair) :
    ∀ idx : Nat, (turnsFrom env idx L).map (fun turn => turn.original_text) =
      L.map (fun x => x.1.2) := by
  induction L with
  | nil => intro idx; rfl
  | cons x xs ih =>
    intro idx
    simp only [turnsFrom, List.map_cons]
    rw [ih]
    rfl

/-- C6: the number of emitted turns equals the number of label-matching
lines — continuation lines merge into the open turn (single-space join)
and never create turns — as the scenario input shows concretely. -/
theorem turns_count_eq_label_lines (env : Collab) (t : String) :
    (_parse_turns t).length = countLabelLines t ∧
    (1 ≤ countLabelLines t →
      run_text_pipeline env t = Except.ok (pipelineOutput env t) ∧
      (pipelineOutput env t).turns.length = countLabelLines t) ∧
    _parse_turns sampleT2 =
      [("Agent", "Hello, how can I help?"), ("Customer", "Thanks.")] ∧
    (pipelineOutput env sampleT2).turns.map (fun turn => turn.original_text) =
      ["Hello, how can I help?", "Thanks."] := by
  have hlen := parse_turns_length t
  refine ⟨hlen, ?_, by decide, ?_⟩
  · intro hc
    have hne : _parse_turns t ≠ [] := by
      intro hnil
      rw [hnil] at hlen
      simp at hlen
      omega
    refine ⟨run_ok env t hne, ?_⟩
    rw [output_turns, turnsFrom_length, zipped_length, hlen]
  · rw [output_turns, turnsFrom_map_original]
    have hmm : (zippedTurns env sampleT2).map (fun x => x.1.2) =
        ((zippedTurns env sampleT2).map (fun x => x.1)).map Prod.snd := by
      rw [List.map_map]
      rfl
    rw [hmm, zipped_fst]
    decide

/-- C6 witness: the run and count at the scenario transcript. -/
theorem turns_count_eq_label_lines_witness :
    run_text_pipeline env0 sampleT2 = Except.ok (pipelineOutput env0 sampleT2) ∧
    (pipelineOutput env0 sampleT2).turns.length = countLabelLines sampleT2 :=
  (turns_count_eq_label_lines env0 sampleT2).2.1 (by decide)

/-- C7: for any extractor behaviour, `all_entities` holds no two entries
whose texts are equal under the runtime's Unicode `str.lower()` (the
case-insensitive comparison the code performs) with identical label; its
elements form a sublist of the turn-ordered entity stream and each is the
first occurrence of its key in that stream. -/
theorem entity_dedup_first_occurrence (env : Collab) (t : String)
    (o : TextPipelineOutput) (ho : run_text_pipeline env t = Except.ok o) :
    o.all_entities = dedupEntities env.lower (entsFrom env (zippedTurns env t)) ∧
    o.all_entities.Pairwise (fun a b =>
      ¬(env.lower a.text = env.lower b.text ∧ a.label = b.label)) ∧
    o.all_entities.Sublist (entsFrom env (zippedTurns env t)) ∧
    ∀ e ∈ o.all_entities, ∃ pre post,
      entsFrom env (zippedTurns env t) = pre ++ e :: post ∧
      ∀ d ∈ pre, ¬(env.lower d.text = env.lower e.text ∧ d.label = e.label) := by
  obtain ⟨hne, rfl⟩ := run_ok_inv env t o ho
  rw [output_all_entities]
  refine ⟨rfl, ?_, dedupGo_sublist env.lower _ [], ?_⟩
  · have hp := dedupGo_pairwise env.lower (entsFrom env (zippedTurns env t)) []
    refine hp.imp ?_
    intro a b hab hcon
    exact hab (Prod.ext_iff.mpr ⟨hcon.1, hcon.2⟩)
  · intro e he
    obtain ⟨pre, post, heq, hpre⟩ :=
      dedupGo_first_occ env.lower (entsFrom env (zippedTurns env t)) [] e he
    refine ⟨pre, post, heq, ?_⟩
    intro d hd hcon
    rcases hpre d hd with hmem | hne2
    · simp at hmem
    · exact hne2 (Prod.ext_iff.mpr ⟨hcon.1, hcon.2⟩)

/-- C7 witness: deduplication under an extractor that reports the same
person twice per turn in different cases. -/
theorem entity_dedup_first_occurrence_witness :
    (pipelineOutput envDup sampleT1).all_entities.Pairwise (fun a b =>
      ¬(envDup.lower a.text = envDup.lower b.text ∧ a.label = b.label)) :=
  (entity_dedup_first_occurrence envDup sampleT1 (pipelineOutput envDup sampleT1)
    (run_ok envDup sampleT1 (by decide))).2.1

/-- C8: evaluation at the failing input: `clean_text` leaves the
non-whitespace control character U+0000 in place (the regex class
`[^\S\n\r\t ]` matches only whitespace characters), contradicting the
claimed collapsing of non-newline/tab control characters and the
docstring "strip control characters". -/
theorem clean_text_keeps_nonws_control :
    clean_text id "a\x00b" = "a\x00b" ∧ clean_text id "a\x00b" ≠ "a b" := by
  decide

/-- C9 counterexample: the single line "Agent:" yields one turn with empty
text, not zero turns — after a label line the accumulated-lines list holds
the (empty) remainder, so the flush guard `and current_lines` passes. -/
theorem parse_empty_remainder_counterexample :
    _parse_turns "Agent:" = [("Agent", "")] ∧ _parse_turns "Agent:" ≠ [] := by
  decide

/-- C9 (amended): at end of input the open turn is appended whenever a
label line has been seen — its accumulated-lines list is never empty,
holding at least the label line's possibly-empty remainder — so "Agent:"
alone yields the single turn ("Agent", ""), and every transcript with a
label-matching line yields at least one turn. -/
theorem parse_flush_unconditional :
    _parse_turns "Agent:" = [("Agent", "")] ∧
    (∀ t, 1 ≤ countLabelLines t → _parse_turns t ≠ []) := by
  refine ⟨by decide, ?_⟩
  intro t hc hnil
  have hlen := parse_turns_length t
  rw [hnil] at hlen
  simp at hlen
  omega

/-- C9 witness: the flush at the concrete one-line input. -/
theorem parse_flush_unconditional_witness : _parse_turns "Agent:" ≠ [] :=
  parse_flush_unconditional.2 "Agent:" (by decide)

/-- C10: a detected language outside the supported set is silently
replaced by the English model — `process_text` behaves exactly as with
`"en"` — while every emitted turn's `language` field still reports the
originally detected code for its text. -/
theorem unsupported_lang_falls_back_to_en (env : Collab) :
    (∀ lang, STANZA_SUPPORTED.contains lang = false →
      _resolve_nlp_lang lang = "en") ∧
    (∀ text lang, STANZA_SUPPORTED.contains lang = false →
      process_text env text lang = process_text env text "en") ∧
    (∀ t, ∀ turn ∈ (pipelineOutput env t).turns,
      turn.language = (detect_language env.rawDetect turn.original_text).1) := by
  have hres : ∀ lang, STANZA_SUPPORTED.contains lang = false →
      _resolve_nlp_lang lang = "en" := by
    intro lang hl
    unfold _resolve_nlp_lang
    rw [hl]
    rfl
  refine ⟨hres, ?_, ?_⟩
  · intro text lang hl
    have h2 : _resolve_nlp_lang lang = _resolve_nlp_lang "en" := by
      rw [hres lang hl]
      rfl
    simp only [process_text]
    rw [h2]
  · intro t turn hturn
    rw [output_turns] at hturn
    refine turnsFrom_forall env
      (fun turn => turn.language =
        (detect_language env.rawDetect turn.original_text).1)
      (zippedTurns env t) 0 ?_ turn hturn
    intro i x hx
    show x.2.1 = (detect_language env.rawDetect x.1.2).1
    exact congrArg Prod.fst (zipped_snd env t x hx)

/-- C10 witness: Malayalam is not in the supported set and resolves to
the English model. -/
theorem unsupported_lang_falls_back_to_en_witness :
    _resolve_nlp_lang "ml" = "en" :=
  (unsupported_lang_falls_back_to_en env0).1 "ml" (by decide)

end ConvI
